import Mathlib

/-!
Verification of the network-lab backend (Rust) against its design
specification, via a shallow embedding of the relevant functions in Lean.

Sources embedded here:
* `src/backend/src/guacamole.rs` — `sanitize_identifier`,
  `compute_websocket_url`, `GuacamoleConnection::build_env_config`,
  `GuacamoleConnection::delete`, `GuacamoleConnection::delete_with_vnc_disable`;
* `src/backend/src/models.rs` — `validate_and_resolve_path`;
* `src/backend/src/main.rs` — the `ENV_FILES` table and the derived
  environment keys inserted by `main`;
* `src/backend/src/qemu.rs` — `get_image_chain`, `allocate_vnc_display`,
  `wipe_node`, `disable_vnc`: these are unimplemented stubs in the source
  (`unimplemented!()` bodies), so they are modelled from the specification's
  contracts, as flagged on each definition.

Machine integers: the Rust code uses `char` (Unicode scalar values), `u16`
display/port numbers that stay far below overflow in every operation
modelled here, and UUIDs that are only compared for equality; we model them
as `Char`, `Nat`, and `Nat` respectively.
-/

namespace NetworkLab

/-! ## Identifier sanitization (`sanitize_identifier`, guacamole.rs 389-415)

Rust pipeline: map each char to its ASCII-lowercased form if
`is_ascii_alphanumeric`, else to `'-'`; collapse runs of hyphens using a
`prev_hyphen` flag; finally `trim_matches('-')`.  Lean core `Char.isAlphanum`
and `Char.toLower` have exactly the ASCII semantics of Rust's
`is_ascii_alphanumeric` / `to_ascii_lowercase` (ranges 48-57, 65-90, 97-122;
uppercase shifted by 32). -/

/-- The per-character map of `sanitize_identifier`: keep ASCII alphanumerics
(lower-cased), replace everything else by a hyphen. -/
def sanitizeChar (c : Char) : Char :=
  if c.isAlphanum then c.toLower else '-'

/-- The hyphen-collapsing loop of `sanitize_identifier`; the `Bool` argument
is the `prev_hyphen` flag (initially `false`). -/
def collapseHyphens : List Char → Bool → List Char
  | [], _ => []
  | c :: rest, prevHyphen =>
    if c = '-' then
      if prevHyphen then collapseHyphens rest true
      else '-' :: collapseHyphens rest true
    else c :: collapseHyphens rest false

/-- `result.trim_matches('-')`: drop hyphens from both ends. -/
def trimHyphens (l : List Char) : List Char :=
  ((l.dropWhile (fun c => c == '-')).reverse.dropWhile (fun c => c == '-')).reverse

/-- Embedding of `sanitize_identifier` (guacamole.rs 389-415). -/
def sanitize_identifier (s : String) : String :=
  String.mk (trimHyphens (collapseHyphens (s.data.map sanitizeChar) false))

/-- No two adjacent characters of the list are both hyphens. -/
def noAdjacentHyphens (l : List Char) : Prop :=
  List.Chain' (fun a b => ¬(a = '-' ∧ b = '-')) l

/-! ### Character-level facts -/

lemma char_toNat_ofNat (n : ℕ) (h : n.isValidChar) : (Char.ofNat n).toNat = n := by
  simp [Char.ofNat, h, Char.ofNatAux, Char.toNat, UInt32.toNat]

lemma alnum_toNat {c : Char} (h : c.isAlphanum = true) :
    (48 ≤ c.toNat ∧ c.toNat ≤ 57) ∨ (65 ≤ c.toNat ∧ c.toNat ≤ 90) ∨
      (97 ≤ c.toNat ∧ c.toNat ≤ 122) := by
  simp [Char.isAlphanum, Char.isAlpha, Char.isUpper, Char.isLower, Char.isDigit,
    Char.toNat, UInt32.le_def, BitVec.le_def, UInt32.toNat] at h ⊢
  omega

lemma alnum_of_toNat {c : Char}
    (h : (48 ≤ c.toNat ∧ c.toNat ≤ 57) ∨ (65 ≤ c.toNat ∧ c.toNat ≤ 90) ∨
      (97 ≤ c.toNat ∧ c.toNat ≤ 122)) : c.isAlphanum = true := by
  simp [Char.isAlphanum, Char.isAlpha, Char.isUpper, Char.isLower, Char.isDigit,
    Char.toNat, UInt32.le_def, BitVec.le_def, UInt32.toNat] at h ⊢
  omega

lemma toLower_eq_of_not_upper {c : Char} (h : ¬(65 ≤ c.toNat ∧ c.toNat ≤ 90)) :
    c.toLower = c := by
  simp only [Char.toLower]
  rw [if_neg (by omega)]

lemma toLower_fixes {c : Char} (h : c.isAlphanum = true) :
    (c.toLower).isAlphanum = true ∧ (c.toLower).toLower = c.toLower := by
  rcases alnum_toNat h with h1 | h1 | h1
  · have e : c.toLower = c := toLower_eq_of_not_upper (by omega)
    rw [e]
    exact ⟨h, e⟩
  · have hv : (c.toNat + 32).isValidChar := by
      left; omega
    have e : c.toLower = Char.ofNat (c.toNat + 32) := by
      simp only [Char.toLower]
      rw [if_pos (by omega)]
    have et : (c.toLower).toNat = c.toNat + 32 := by
      rw [e, char_toNat_ofNat _ hv]
    constructor
    · exact alnum_of_toNat (Or.inr (Or.inr (by omega)))
    · exact toLower_eq_of_not_upper (by omega)
  · have e : c.toLower = c := toLower_eq_of_not_upper (by omega)
    rw [e]
    exact ⟨h, e⟩

lemma toLower_ne_hyphen {c : Char} (h : c.isAlphanum = true) : c.toLower ≠ '-' := by
  intro e
  have h2 := (toLower_fixes h).1
  rw [e] at h2
  exact absurd h2 (by decide)

/-- Every output of `sanitizeChar` is either a hyphen or a lower-case ASCII
alphanumeric character that `sanitizeChar` (and `toLower`) leaves fixed. -/
lemma sanitizeChar_cases (c : Char) :
    sanitizeChar c = '-' ∨
      ((sanitizeChar c).isAlphanum = true ∧ (sanitizeChar c).toLower = sanitizeChar c ∧
        sanitizeChar c ≠ '-') := by
  unfold sanitizeChar
  by_cases h : c.isAlphanum = true
  · right
    rw [if_pos h]
    exact ⟨(toLower_fixes h).1, (toLower_fixes h).2, toLower_ne_hyphen h⟩
  · left
    rw [if_neg h]

lemma sanitizeChar_eq_self {c : Char}
    (h : c = '-' ∨ (c.isAlphanum = true ∧ c.toLower = c)) : sanitizeChar c = c := by
  rcases h with h | ⟨h1, h2⟩
  · subst h; decide
  · unfold sanitizeChar
    rw [if_pos h1, h2]

/-! ### List-level facts about the collapse and trim stages -/

lemma mem_collapseHyphens : ∀ (l : List Char) (b : Bool) (c : Char),
    c ∈ collapseHyphens l b → c ∈ l := by
  intro l
  induction l with
  | nil =>
    intro b c h
    exact absurd h (by simp [collapseHyphens])
  | cons a rest ih =>
    intro b c h
    unfold collapseHyphens at h
    by_cases ha : a = '-'
    · rw [if_pos ha] at h
      cases b with
      | true => exact List.mem_cons_of_mem a (ih true c h)
      | false =>
        rcases List.mem_cons.mp h with e | h2
        · rw [e, ha]; exact List.mem_cons_self _ _
        · exact List.mem_cons_of_mem a (ih true c h2)
    · rw [if_neg ha] at h
      rcases List.mem_cons.mp h with e | h2
      · rw [e]; exact List.mem_cons_self _ _
      · exact List.mem_cons_of_mem a (ih false c h2)

lemma chain'_collapseHyphens : ∀ (l : List Char) (b : Bool),
    noAdjacentHyphens (collapseHyphens l b) ∧
      (b = true → (collapseHyphens l b).head? ≠ some '-') := by
  intro l
  induction l with
  | nil =>
    intro b
    exact ⟨List.chain'_nil, by simp [collapseHyphens]⟩
  | cons a rest ih =>
    intro b
    unfold collapseHyphens noAdjacentHyphens
    by_cases ha : a = '-'
    · rw [if_pos ha]
      cases b with
      | true =>
        rw [if_pos rfl]
        exact ⟨(ih true).1, fun _ => (ih true).2 rfl⟩
      | false =>
        rw [if_neg Bool.false_ne_true]
        constructor
        · rw [List.chain'_cons']
          refine ⟨?_, (ih true).1⟩
          intro y hy hcontra
          rw [Option.mem_def] at hy
          apply (ih true).2 rfl
          rw [hy, hcontra.2]
        · intro hb; exact absurd hb (by simp)
    · rw [if_neg ha]
      constructor
      · rw [List.chain'_cons']
        refine ⟨?_, (ih false).1⟩
        intro y _ hcontra
        exact ha hcontra.1
      · intro _
        simp [ha]

lemma filter_collapseHyphens : ∀ (l : List Char) (b : Bool),
    (collapseHyphens l b).filter (fun c => !(c == '-'))
      = l.filter (fun c => !(c == '-')) := by
  intro l
  induction l with
  | nil => intro b; rfl
  | cons a rest ih =>
    intro b
    unfold collapseHyphens
    by_cases ha : a = '-'
    · rw [if_pos ha]
      subst ha
      cases b with
      | true => rw [if_pos rfl, ih true]; simp [List.filter_cons]
      | false => rw [if_neg Bool.false_ne_true]; simp [List.filter_cons, ih true]
    · rw [if_neg ha]
      have hb : (!(a == '-')) = true := by simp [ha]
      simp [List.filter_cons, hb, ih false]

lemma filter_dropWhileHyphens (l : List Char) :
    (l.dropWhile (fun c => c == '-')).filter (fun c => !(c == '-'))
      = l.filter (fun c => !(c == '-')) := by
  conv_rhs => rw [← List.takeWhile_append_dropWhile (p := fun c => c == '-') (l := l)]
  rw [List.filter_append]
  have h : (l.takeWhile (fun c => c == '-')).filter (fun c => !(c == '-')) = [] := by
    rw [List.filter_eq_nil_iff]
    intro a ha
    have := List.mem_takeWhile_imp ha
    simp at this ⊢
    exact this
  rw [h, List.nil_append]

lemma filter_trimHyphens (l : List Char) :
    (trimHyphens l).filter (fun c => !(c == '-'))
      = l.filter (fun c => !(c == '-')) := by
  unfold trimHyphens
  rw [List.filter_reverse, filter_dropWhileHyphens, List.filter_reverse,
    filter_dropWhileHyphens, List.reverse_reverse]

lemma head?_dropWhile_ne_hyphen (l : List Char) :
    (l.dropWhile (fun c => c == '-')).head? ≠ some '-' := by
  have h2 := List.head?_dropWhile_not (fun c => c == '-') l
  cases hh : (l.dropWhile (fun c => c == '-')).head? with
  | none => simp
  | some x =>
    rw [hh] at h2
    simp at h2
    simp [h2]

lemma head?_trimHyphens (l : List Char) : (trimHyphens l).head? ≠ some '-' := by
  unfold trimHyphens
  rw [List.head?_reverse]
  by_cases hB : (l.dropWhile (fun c => c == '-')).reverse.dropWhile (fun c => c == '-') = []
  · rw [hB]; simp
  · obtain ⟨pre, hpre⟩ :=
      List.dropWhile_suffix (l := (l.dropWhile (fun c => c == '-')).reverse)
        (fun c => c == '-')
    have e1 := List.getLast?_append_of_ne_nil pre hB
    rw [← e1, hpre, List.getLast?_reverse]
    exact head?_dropWhile_ne_hyphen l

lemma getLast?_trimHyphens (l : List Char) : (trimHyphens l).getLast? ≠ some '-' := by
  unfold trimHyphens
  rw [List.getLast?_reverse]
  exact head?_dropWhile_ne_hyphen _

lemma chain'_symm_reverse {l : List Char}
    (h : List.Chain' (fun a b => ¬(a = '-' ∧ b = '-')) l) :
    List.Chain' (fun a b => ¬(a = '-' ∧ b = '-')) l.reverse := by
  rw [List.chain'_reverse]
  exact h.imp (fun a b hab hx => hab ⟨hx.2, hx.1⟩)

lemma chain'_trimHyphens {l : List Char} (h : noAdjacentHyphens l) :
    noAdjacentHyphens (trimHyphens l) := by
  unfold noAdjacentHyphens at h ⊢
  unfold trimHyphens
  exact chain'_symm_reverse
    (List.Chain'.suffix
      (chain'_symm_reverse (List.Chain'.suffix h (List.dropWhile_suffix _)))
      (List.dropWhile_suffix _))

lemma mem_trimHyphens {c : Char} {l : List Char} (h : c ∈ trimHyphens l) : c ∈ l := by
  unfold trimHyphens at h
  rw [List.mem_reverse] at h
  have h2 := (List.dropWhile_suffix (fun c => c == '-')).subset h
  rw [List.mem_reverse] at h2
  exact (List.dropWhile_suffix (fun c => c == '-')).subset h2

/-! ### The sanitized-output invariants (shared by the claims about
`sanitize_identifier`) -/

lemma sanitize_chars_ok (s : String) :
    ∀ c ∈ (sanitize_identifier s).data,
      c = '-' ∨ (c.isAlphanum = true ∧ c.toLower = c) := by
  intro c hc
  have h1 : c ∈ collapseHyphens (s.data.map sanitizeChar) false := mem_trimHyphens hc
  have h2 : c ∈ s.data.map sanitizeChar := mem_collapseHyphens _ _ _ h1
  obtain ⟨a, _, rfl⟩ := List.mem_map.mp h2
  rcases sanitizeChar_cases a with h | ⟨h1', h2', _⟩
  · left; exact h
  · right; exact ⟨h1', h2'⟩

lemma sanitize_noAdjacent (s : String) :
    noAdjacentHyphens (sanitize_identifier s).data :=
  chain'_trimHyphens (chain'_collapseHyphens _ false).1

lemma sanitize_head (s : String) :
    (sanitize_identifier s).data.head? ≠ some '-' :=
  head?_trimHyphens _

lemma sanitize_last (s : String) :
    (sanitize_identifier s).data.getLast? ≠ some '-' :=
  getLast?_trimHyphens _

lemma sanitize_filter (s : String) :
    (sanitize_identifier s).data.filter (fun c => !(c == '-'))
      = (s.data.filter Char.isAlphanum).map Char.toLower := by
  show (trimHyphens (collapseHyphens (s.data.map sanitizeChar) false)).filter
      (fun c => !(c == '-')) = _
  rw [filter_trimHyphens, filter_collapseHyphens, List.filter_map]
  have e1 : ∀ x ∈ s.data,
      ((fun c => !(c == '-')) ∘ sanitizeChar) x = Char.isAlphanum x := by
    intro x _
    by_cases h : x.isAlphanum = true
    · simp [Function.comp, sanitizeChar, h, toLower_ne_hyphen h]
    · simp only [Bool.not_eq_true] at h
      simp [Function.comp, sanitizeChar, h]
  rw [List.filter_congr e1]
  apply List.map_congr_left
  intro a ha
  have h := (List.mem_filter.mp ha).2
  simp [sanitizeChar, h]

lemma collapse_eq_self : ∀ (l : List Char) (b : Bool),
    noAdjacentHyphens l → (b = true → l.head? ≠ some '-') →
      collapseHyphens l b = l := by
  intro l
  induction l with
  | nil => intro b _ _; rfl
  | cons a rest ih =>
    intro b hchain hhead
    rw [noAdjacentHyphens, List.chain'_cons'] at hchain
    unfold collapseHyphens
    by_cases ha : a = '-'
    · subst ha
      cases b with
      | true => exact absurd rfl (hhead rfl)
      | false =>
        rw [if_pos rfl, if_neg Bool.false_ne_true]
        congr 1
        apply ih true hchain.2
        intro _ hy
        exact hchain.1 '-' (Option.mem_def.mpr hy) ⟨rfl, rfl⟩
    · rw [if_neg ha]
      congr 1
      exact ih false hchain.2 (fun h => absurd h Bool.false_ne_true)

lemma dropWhile_eq_self_of_head {l : List Char} (h : l.head? ≠ some '-') :
    l.dropWhile (fun c => c == '-') = l := by
  cases l with
  | nil => rfl
  | cons a t =>
    have ha : a ≠ '-' := by
      intro e
      exact h (by rw [e]; rfl)
    rw [List.dropWhile_cons, if_neg (by simp [ha])]

lemma trim_eq_self {l : List Char} (h1 : l.head? ≠ some '-')
    (h2 : l.getLast? ≠ some '-') : trimHyphens l = l := by
  unfold trimHyphens
  rw [dropWhile_eq_self_of_head h1]
  have d2 : l.reverse.dropWhile (fun c => c == '-') = l.reverse := by
    apply dropWhile_eq_self_of_head
    rw [List.head?_reverse]
    exact h2
  rw [d2, List.reverse_reverse]

lemma string_mk_data (s : String) : String.mk s.data = s := by
  cases s
  rfl

/-! ### The two claims about `sanitize_identifier` -/

/-- C2: for every input string, `sanitize_identifier` keeps lower-cased
ASCII alphanumeric characters (in order, nothing else survives), every
other character becomes a hyphen, runs of hyphens are collapsed (no two
adjacent hyphens remain), leading and trailing hyphens are trimmed; and
sanitizing "My Connection/01" yields "my-connection-01". -/
theorem sanitize_identifier_spec :
    sanitize_identifier "My Connection/01" = "my-connection-01" ∧
    ∀ s : String,
      (∀ c ∈ (sanitize_identifier s).data,
        c = '-' ∨ (c.isAlphanum = true ∧ c.toLower = c)) ∧
      noAdjacentHyphens (sanitize_identifier s).data ∧
      (sanitize_identifier s).data.head? ≠ some '-' ∧
      (sanitize_identifier s).data.getLast? ≠ some '-' ∧
      (sanitize_identifier s).data.filter (fun c => !(c == '-'))
        = (s.data.filter Char.isAlphanum).map Char.toLower := by
  refine ⟨by decide, fun s => ⟨sanitize_chars_ok s, sanitize_noAdjacent s,
    sanitize_head s, sanitize_last s, sanitize_filter s⟩⟩

/-- Witness for C2: instantiates the character-classification clause at the
concrete input "My Connection/01" and the concrete output character 'm'. -/
theorem sanitize_identifier_spec_witness :
    'm' = '-' ∨ ('m'.isAlphanum = true ∧ 'm'.toLower = 'm') :=
  (sanitize_identifier_spec.2 "My Connection/01").1 'm' (by decide)

/-- C10: `sanitize_identifier` is idempotent — identifiers already in
sanitized form pass through unchanged. -/
theorem sanitize_identifier_idempotent :
    ∀ s : String, sanitize_identifier (sanitize_identifier s) = sanitize_identifier s := by
  intro s
  have hmap : (sanitize_identifier s).data.map sanitizeChar
      = (sanitize_identifier s).data := by
    have e : ∀ c ∈ (sanitize_identifier s).data, sanitizeChar c = id c :=
      fun c hc => sanitizeChar_eq_self (sanitize_chars_ok s c hc)
    rw [List.map_congr_left e, List.map_id]
  show String.mk (trimHyphens (collapseHyphens
      ((sanitize_identifier s).data.map sanitizeChar) false)) = sanitize_identifier s
  rw [hmap,
    collapse_eq_self _ false (sanitize_noAdjacent s) (fun h => absurd h Bool.false_ne_true),
    trim_eq_self (sanitize_head s) (sanitize_last s), string_mk_data]

/-! ## Path resolver (`validate_and_resolve_path`, models.rs 94-127)

The Rust function works on `std::path` values and the real filesystem.  We
model a `PathBuf` as an absolute-flag plus a list of components, and the
filesystem operations `canonicalize` (which resolves symlinks and `..` and
fails on missing files with an `io::Error`) and `exists` as an abstract
oracle `Fs`.  `Path::join` replaces the whole path when the argument is
absolute, `Path::parent` drops the last component (`None` on a root or empty
path), `Path::file_name` is the last component (`None` for `..`), and
`Path::starts_with` is component-wise prefix — all as in `std::path`. -/

/-- A filesystem path: absolute-flag plus components (model of `PathBuf`). -/
structure FsPath where
  absolute : Bool
  components : List String
deriving DecidableEq

/-- `Path::join`: appends, except an absolute argument replaces the path. -/
def FsPath.join (p q : FsPath) : FsPath :=
  if q.absolute then q else ⟨p.absolute, p.components ++ q.components⟩

/-- `Path::parent`: drop the final component; `None` when there is none. -/
def FsPath.parent (p : FsPath) : Option FsPath :=
  match p.components with
  | [] => none
  | _ => some ⟨p.absolute, p.components.dropLast⟩

/-- `Path::file_name`: the final component (`None` for `..` or a bare root). -/
def FsPath.fileName (p : FsPath) : Option String :=
  match p.components.getLast? with
  | none => none
  | some c => if c = ".." then none else some c

/-- `Path::push` / `Path::join` with a single file name. -/
def FsPath.push (p : FsPath) (c : String) : FsPath :=
  ⟨p.absolute, p.components ++ [c]⟩

/-- `Path::starts_with`: component-wise prefix test. -/
def FsPath.startsWith (p base : FsPath) : Bool :=
  p.absolute == base.absolute && base.components.isPrefixOf p.components

/-- Abstract filesystem oracle: `fs::canonicalize` (`none` models the
`io::Error` case) and `Path::exists`. -/
structure Fs where
  canonicalize : FsPath → Option FsPath
  pathExists : FsPath → Bool

/-- `ImagePathError` (models.rs 13-19): `InvalidPath(io::Error)` and
`PathTraversal(String)`. -/
inductive ImagePathError where
  | invalidPath (msg : String)
  | pathTraversal (msg : String)
deriving DecidableEq

/-- The `path_to_check` block of `validate_and_resolve_path` (models.rs
101-116): canonicalize the joined target directly when it exists, otherwise
canonicalize its parent and re-append the file name. -/
def resolveCandidate (fs : Fs) (full_path : FsPath) : Except ImagePathError FsPath :=
  if fs.pathExists full_path then
    match fs.canonicalize full_path with
    | none => .error (.invalidPath "canonicalize full_path")
    | some p => .ok p
  else
    match full_path.parent with
    | none => .error (.invalidPath "Path has no parent directory")
    | some par =>
      match fs.canonicalize par with
      | none => .error (.invalidPath "canonicalize parent")
      | some cpar =>
        match full_path.fileName with
        | none => .error (.invalidPath "Path has no filename")
        | some name => .ok (cpar.push name)

/-- Embedding of `validate_and_resolve_path` (models.rs 94-127). -/
def validate_and_resolve_path (fs : Fs) (base_dir relative_path : FsPath) :
    Except ImagePathError FsPath :=
  match fs.canonicalize base_dir with
  | none => .error (.invalidPath "canonicalize base_dir")
  | some base =>
    match resolveCandidate fs (base.join relative_path) with
    | .error e => .error e
    | .ok p =>
      if p.startsWith base then .ok p
      else .error (.pathTraversal "outside the allowed directory")

/-- C1: `validate_and_resolve_path` never returns a path outside the
canonicalized base directory: every success is prefixed by the canonical
base; a candidate that escapes the base is rejected with `PathTraversal`;
when the joined target exists it is canonicalized directly, and otherwise
the parent is canonicalized and the file name re-appended. -/
theorem validate_and_resolve_path_spec :
    ∀ (fs : Fs) (base_dir relative_path : FsPath),
      (∀ p, validate_and_resolve_path fs base_dir relative_path = .ok p →
        ∃ base, fs.canonicalize base_dir = some base ∧ p.startsWith base = true) ∧
      (∀ base p, fs.canonicalize base_dir = some base →
        resolveCandidate fs (base.join relative_path) = .ok p →
        p.startsWith base = false →
          validate_and_resolve_path fs base_dir relative_path
            = .error (.pathTraversal "outside the allowed directory")) ∧
      (∀ base p, fs.canonicalize base_dir = some base →
        fs.pathExists (base.join relative_path) = true →
        validate_and_resolve_path fs base_dir relative_path = .ok p →
          fs.canonicalize (base.join relative_path) = some p) ∧
      (∀ base p, fs.canonicalize base_dir = some base →
        fs.pathExists (base.join relative_path) = false →
        validate_and_resolve_path fs base_dir relative_path = .ok p →
          ∃ par cpar name, (base.join relative_path).parent = some par ∧
            fs.canonicalize par = some cpar ∧
            (base.join relative_path).fileName = some name ∧
            p = cpar.push name) := by
  intro fs base_dir relative_path
  refine ⟨?_, ?_, ?_, ?_⟩
  · intro p hp
    unfold validate_and_resolve_path at hp
    cases hbase : fs.canonicalize base_dir with
    | none => simp only [hbase] at hp; exact absurd hp (by simp)
    | some base =>
      simp only [hbase] at hp
      refine ⟨base, rfl, ?_⟩
      cases hcand : resolveCandidate fs (base.join relative_path) with
      | error e => simp only [hcand] at hp; exact absurd hp (by simp)
      | ok q =>
        simp only [hcand] at hp
        by_cases hsw : q.startsWith base = true
        · rw [if_pos hsw] at hp
          cases hp
          exact hsw
        · rw [if_neg hsw] at hp
          exact absurd hp (by simp)
  · intro base p hbase hcand hsw
    unfold validate_and_resolve_path
    simp only [hbase, hcand, hsw, Bool.false_eq_true, if_false]
  · intro base p hbase hex hp
    unfold validate_and_resolve_path at hp
    simp only [hbase] at hp
    cases hcand : resolveCandidate fs (base.join relative_path) with
    | error e => simp only [hcand] at hp; exact absurd hp (by simp)
    | ok q =>
      simp only [hcand] at hp
      have hq : q = p := by
        by_cases hsw : q.startsWith base = true
        · rw [if_pos hsw] at hp; cases hp; rfl
        · rw [if_neg hsw] at hp; exact absurd hp (by simp)
      subst hq
      unfold resolveCandidate at hcand
      rw [if_pos hex] at hcand
      cases hcan : fs.canonicalize (base.join relative_path) with
      | none => simp only [hcan] at hcand; exact absurd hcand (by simp)
      | some r =>
        simp only [hcan] at hcand
        injection hcand with h
        rw [h]
  · intro base p hbase hex hp
    unfold validate_and_resolve_path at hp
    simp only [hbase] at hp
    cases hcand : resolveCandidate fs (base.join relative_path) with
    | error e => simp only [hcand] at hp; exact absurd hp (by simp)
    | ok q =>
      simp only [hcand] at hp
      have hq : q = p := by
        by_cases hsw : q.startsWith base = true
        · rw [if_pos hsw] at hp; cases hp; rfl
        · rw [if_neg hsw] at hp; exact absurd hp (by simp)
      subst hq
      unfold resolveCandidate at hcand
      rw [if_neg (by rw [hex]; exact Bool.false_ne_true)] at hcand
      cases hpar : (base.join relative_path).parent with
      | none => simp only [hpar] at hcand; exact absurd hcand (by simp)
      | some par =>
        simp only [hpar] at hcand
        cases hcan : fs.canonicalize par with
        | none => simp only [hcan] at hcand; exact absurd hcand (by simp)
        | some cpar =>
          simp only [hcan] at hcand
          cases hname : (base.join relative_path).fileName with
          | none => simp only [hname] at hcand; exact absurd hcand (by simp)
          | some name =>
            simp only [hname] at hcand
            cases hcand
            exact ⟨par, cpar, name, rfl, hcan, rfl, rfl⟩

/-- Witness for C1: on the identity-canonicalizing filesystem where every
path exists, resolving "f" under absolute base "base" succeeds and the
result is prefixed by the canonical base. -/
theorem validate_and_resolve_path_spec_witness :
    ∃ base, Fs.canonicalize ⟨fun p => some p, fun _ => true⟩ ⟨true, ["base"]⟩
        = some base ∧
      FsPath.startsWith ⟨true, ["base", "f"]⟩ base = true :=
  (validate_and_resolve_path_spec ⟨fun p => some p, fun _ => true⟩ ⟨true, ["base"]⟩
    ⟨false, ["f"]⟩).1 ⟨true, ["base", "f"]⟩ rfl

/-! ## Gateway environment configuration (`build_env_config`, guacamole.rs
256-298, and the env map built by `main`, main.rs 18-45 / 124-162)

The env map is modelled as an association list.  Every `env.get(k).unwrap()`
of the Rust code is modelled as an `Option` lookup whose `none` outcome
stands for the `Option::unwrap` panic — the source has no typed-error path
for a missing key. -/

/-- `HashMap::get` on the env map (first binding wins). -/
def envLookup (env : List (String × String)) (k : String) : Option String :=
  (env.find? (fun kv => kv.1 == k)).map (fun kv => kv.2)

/-- Rust `str::trim` (the env values here only ever carry ASCII whitespace,
which `Char.isWhitespace` covers). -/
def trimWs (s : String) : String :=
  String.mk (((s.data.dropWhile Char.isWhitespace).reverse.dropWhile
    Char.isWhitespace).reverse)

/-- Rust `str::trim_matches(ch)`. -/
def trimMatchesChar (ch : Char) (s : String) : String :=
  String.mk (((s.data.dropWhile (fun c => c == ch)).reverse.dropWhile
    (fun c => c == ch)).reverse)

/-- Rust `str::trim_end_matches(ch)`. -/
def trimEndMatchesChar (ch : Char) (s : String) : String :=
  String.mk ((s.data.reverse.dropWhile (fun c => c == ch)).reverse)

/-- Embedding of `compute_websocket_url` (guacamole.rs 373-387). -/
def compute_websocket_url (base_http_url tunnel_path : String) : String :=
  let pair :=
    if base_http_url.startsWith "https://" then ("wss://", base_http_url.drop 8)
    else if base_http_url.startsWith "http://" then ("ws://", base_http_url.drop 7)
    else ("ws://", base_http_url)
  pair.1 ++ trimMatchesChar '/' pair.2 ++ "/" ++ trimMatchesChar '/' tunnel_path

/-- The `EnvConfig` struct (guacamole.rs 359-371).  The source field
`connection_prefix` is named `connection_pfx` here. -/
structure EnvConfig where
  base_http_url : String
  tunnel_path : String
  api_path : String
  connection_pfx : String
  username : String
  password : String
  connection_key : String
  client_identifier : String
  api_url : String
  tunnel_url : String
  websocket_url : String
deriving DecidableEq

/-- Embedding of `GuacamoleConnection::build_env_config` (guacamole.rs
256-298).  Each `match … none` arm models the `.unwrap()` panic on a missing
key; on success the computed `EnvConfig` is exactly the Rust one.  Note the
connection key is `sanitize_identifier connection_name` with no fallback of
any kind. -/
def build_env_config (env : List (String × String)) (connection_name : String) :
    Option EnvConfig :=
  match envLookup env "GUAC_URL" with
  | none => none
  | some url =>
  match envLookup env "GUAC_TUNNEL_PATH" with
  | none => none
  | some tunnel =>
  match envLookup env "GUAC_API_PATH" with
  | none => none
  | some api =>
  match envLookup env "GUAC_CONNECTION_PREFIX" with
  | none => none
  | some pfxRaw =>
  match envLookup env "GUAC_ADMIN_USER" with
  | none => none
  | some user =>
  match envLookup env "GUAC_ADMIN_PASS" with
  | none => none
  | some pass =>
    let base_http_url := trimEndMatchesChar '/' (trimWs url)
    let tunnel_path := trimMatchesChar '/' (trimWs tunnel)
    let api_path := trimMatchesChar '/' (trimWs api)
    let pfx := sanitize_identifier pfxRaw
    let connection_key := sanitize_identifier connection_name
    some
      { base_http_url := base_http_url
        tunnel_path := tunnel_path
        api_path := api_path
        connection_pfx := pfx
        username := user
        password := pass
        connection_key := connection_key
        client_identifier := pfx ++ "-" ++ connection_key
        api_url := base_http_url ++ "/" ++ api_path
        tunnel_url := base_http_url ++ "/" ++ tunnel_path
        websocket_url := compute_websocket_url base_http_url tunnel_path }

/-- The credential lookups at the top of `GuacamoleConnection::delete`
(guacamole.rs 210-211): `env.get("GUAC_USER").unwrap()` and
`env.get("GUAC_PASS").unwrap()`; `none` models the panic. -/
def delete_credentials (env : List (String × String)) : Option (String × String) :=
  match envLookup env "GUAC_USER" with
  | none => none
  | some u =>
    match envLookup env "GUAC_PASS" with
    | none => none
    | some p => some (u, p)

/-- Every key `main` ever places in the shared env map (main.rs 18-45:
the `ENV_FILES` table; main.rs 139-162: the three derived keys).  Notably
absent: `GUAC_ADMIN_USER`, `GUAC_ADMIN_PASS`, `GUAC_USER`, `GUAC_PASS`. -/
def runtimeEnvKeys : List String :=
  ["POSTGRES_USER", "POSTGRES_PASSWORD", "POSTGRES_DB", "POSTGRES_PORT",
   "POSTGRES_HOST", "IMAGE_DIR", "OVERLAY_DIR", "BACKEND_HOST", "BACKEND_PORT",
   "GUAC_DB", "GUAC_DB_USER", "GUAC_DB_PASSWORD", "GUAC_HTTPS", "GUAC_HOST",
   "GUAC_PORT", "GUAC_TUNNEL_PATH", "GUAC_API_PATH", "GUAC_CONNECTION_PREFIX",
   "DATABASE_URL", "GUAC_DATABASE_URL", "GUAC_URL"]

/-- A concrete env map as produced by startup: every runtime key bound. -/
def envStartup : List (String × String) :=
  runtimeEnvKeys.map (fun k => (k, "v"))

/-- A concrete env map carrying every key `build_env_config` reads. -/
def envC3 : List (String × String) :=
  [("GUAC_URL", "http://gw:8080/"), ("GUAC_TUNNEL_PATH", "tunnel"),
   ("GUAC_API_PATH", "api"), ("GUAC_CONNECTION_PREFIX", "lab"),
   ("GUAC_ADMIN_USER", "admin"), ("GUAC_ADMIN_PASS", "pw")]

lemma envLookup_eq_none {env : List (String × String)} {k : String}
    (h : ∀ kv ∈ env, kv.1 ≠ k) : envLookup env k = none := by
  unfold envLookup
  rw [List.find?_eq_none.mpr]
  · rfl
  · intro kv hkv
    simp [h kv hkv]

/-! ### C3 and C5 -/

/-- Counterexample for C3: sanitizing the all-punctuation name "!!!" yields
the empty string, and `build_env_config` then uses that empty string as the
connection key unchanged — the client identifier degenerates to "lab-".  No
random identifier is substituted anywhere in the source. -/
theorem build_env_config_empty_key_counterexample :
    sanitize_identifier "!!!" = "" ∧
    (build_env_config envC3 "!!!").map EnvConfig.connection_key = some "" ∧
    (build_env_config envC3 "!!!").map EnvConfig.client_identifier = some "lab-" := by
  refine ⟨by decide, by decide, by decide⟩

/-- C3 (amended): the connection key is always exactly
`sanitize_identifier connection_name` — empty when sanitization yields empty
— and the client identifier is always `prefix ++ "-" ++ key`. -/
theorem build_env_config_key_spec :
    ∀ (env : List (String × String)) (name : String) (cfg : EnvConfig),
      build_env_config env name = some cfg →
        EnvConfig.connection_key cfg = sanitize_identifier name ∧
        EnvConfig.client_identifier cfg
          = EnvConfig.connection_pfx cfg ++ "-" ++ sanitize_identifier name := by
  intro env name cfg h
  unfold build_env_config at h
  cases h1 : envLookup env "GUAC_URL" with
  | none => simp only [h1] at h; exact absurd h (by simp)
  | some url =>
  simp only [h1] at h
  cases h2 : envLookup env "GUAC_TUNNEL_PATH" with
  | none => simp only [h2] at h; exact absurd h (by simp)
  | some tunnel =>
  simp only [h2] at h
  cases h3 : envLookup env "GUAC_API_PATH" with
  | none => simp only [h3] at h; exact absurd h (by simp)
  | some api =>
  simp only [h3] at h
  cases h4 : envLookup env "GUAC_CONNECTION_PREFIX" with
  | none => simp only [h4] at h; exact absurd h (by simp)
  | some pfxRaw =>
  simp only [h4] at h
  cases h5 : envLookup env "GUAC_ADMIN_USER" with
  | none => simp only [h5] at h; exact absurd h (by simp)
  | some user =>
  simp only [h5] at h
  cases h6 : envLookup env "GUAC_ADMIN_PASS" with
  | none => simp only [h6] at h; exact absurd h (by simp)
  | some pass =>
  simp only [h6] at h
  injection h with h
  subst h
  exact ⟨rfl, rfl⟩

/-- Witness for the amended C3: evaluated at `envC3` and the name "!!!". -/
theorem build_env_config_key_spec_witness :
    (build_env_config envC3 "!!!").map EnvConfig.connection_key
      = some (sanitize_identifier "!!!") := by
  cases hc : build_env_config envC3 "!!!" with
  | none => exact absurd hc (by decide)
  | some cfg =>
    simp only [Option.map_some']
    rw [(build_env_config_key_spec envC3 "!!!" cfg hc).1]

/-- C5: on any env map containing only the keys that startup ever loads
(`ENV_FILES` plus the derived keys — the actual runtime situation, since
`GUAC_ADMIN_USER`/`GUAC_ADMIN_PASS`/`GUAC_USER`/`GUAC_PASS` are never
loaded), `build_env_config` and the credential lookups of
`GuacamoleConnection::delete` hit the modelled `Option::unwrap` panic
(`none`) instead of returning any typed error value. -/
theorem guac_env_unwrap_panics :
    ∀ env : List (String × String),
      (∀ kv ∈ env, kv.1 ∈ runtimeEnvKeys) →
      (∀ name, build_env_config env name = none) ∧ delete_credentials env = none := by
  intro env henv
  have hadmin : envLookup env "GUAC_ADMIN_USER" = none := by
    apply envLookup_eq_none
    intro kv hkv he
    have := henv kv hkv
    rw [he] at this
    exact absurd this (by decide)
  have huser : envLookup env "GUAC_USER" = none := by
    apply envLookup_eq_none
    intro kv hkv he
    have := henv kv hkv
    rw [he] at this
    exact absurd this (by decide)
  constructor
  · intro name
    unfold build_env_config
    cases h1 : envLookup env "GUAC_URL" with
    | none => rfl
    | some url =>
    cases h2 : envLookup env "GUAC_TUNNEL_PATH" with
    | none => rfl
    | some tunnel =>
    cases h3 : envLookup env "GUAC_API_PATH" with
    | none => rfl
    | some api =>
    cases h4 : envLookup env "GUAC_CONNECTION_PREFIX" with
    | none => rfl
    | some pfxRaw =>
    simp only [hadmin]
  · unfold delete_credentials
    simp only [huser]

/-- Witness for C5: the concrete startup env map (every loaded key bound)
makes both lookups panic. -/
theorem guac_env_unwrap_panics_witness :
    (∀ name, build_env_config envStartup name = none) ∧
      delete_credentials envStartup = none :=
  guac_env_unwrap_panics envStartup (by decide)

/-! ## QEMU error taxonomy (qemu.rs 9-43) -/

/-- `QemuError` (qemu.rs 9-43); `SpawnFailed(io::Error)` carries a message. -/
inductive QemuError where
  | spawnFailed (msg : String)
  | nodeNotRunning
  | nodeAlreadyRunning
  | vncNotEnabled
  | vncAlreadyEnabled
  | vncPortAllocationFailed
  | invalidConfiguration (msg : String)
  | processExited (msg : String)
  | monitorError (msg : String)
  | imageNotFound (id : Nat)
  | imagePathError (msg : String)
deriving DecidableEq

/-- `GuacamoleError` (guacamole.rs 8-20). -/
inductive GuacamoleError where
  | request (msg : String)
  | authFailed
  | connectionFailed (msg : String)
  | qemu (e : QemuError)
  | vncNotEnabled
deriving DecidableEq

/-! ## Teardown ordering (`delete_with_vnc_disable`, guacamole.rs 240-252)

`delete_with_vnc_disable` is straight-line code: `self.delete(env).await?`
then `qemu::disable_vnc(instance).await?`.  We model the observable world of
one session — whether the gateway still holds the connection record and the
instance's `vnc_port` — plus a trace of attempted side-effecting steps, and
the network/monitor outcomes as Boolean oracles. -/

/-- Observable session state: the gateway-side connection record and the
`QemuInstance.vnc_port` field. -/
structure SessionState where
  connectionRegistered : Bool
  vnc_port : Option Nat
deriving DecidableEq

/-- Side-effecting steps attempted during teardown, in trace order. -/
inductive TeardownStep where
  | gatewayAuth
  | gatewayDelete
  | vncDisable
deriving DecidableEq

namespace GuacamoleConnection

/-- Embedding of `GuacamoleConnection::delete` (guacamole.rs 209-237): POST
the auth token request (failure ⇒ `AuthFailed`), then DELETE the connection
record (failure ⇒ `ConnectionFailed`); on success the gateway record is
gone.  `authOk`/`deleteOk` are the outcomes of the two HTTP calls. -/
def delete (authOk deleteOk : Bool) (st : SessionState) :
    Except GuacamoleError Unit × SessionState × List TeardownStep :=
  if authOk = false then
    (.error .authFailed, st, [.gatewayAuth])
  else if deleteOk = false then
    (.error (.connectionFailed "delete"), st, [.gatewayAuth, .gatewayDelete])
  else
    (.ok (), { st with connectionRegistered := false },
      [.gatewayAuth, .gatewayDelete])

end GuacamoleConnection

/-- Modelled from the spec: `qemu::disable_vnc` is an `unimplemented!()`
stub (qemu.rs 164-170); spec section 4.6 and the stub's TODO comment: fail with
`VncNotEnabled` if no port is set, otherwise issue the disable command over
the monitor channel (outcome `monOk`, failure ⇒ `MonitorError`) and clear
the port. -/
def disable_vnc (monOk : Bool) (st : SessionState) :
    Except QemuError Unit × SessionState × List TeardownStep :=
  match st.vnc_port with
  | none => (.error .vncNotEnabled, st, [])
  | some _ =>
    if monOk then (.ok (), { st with vnc_port := none }, [.vncDisable])
    else (.error (.monitorError "disable vnc"), st, [.vncDisable])

namespace GuacamoleConnection

/-- Embedding of `GuacamoleConnection::delete_with_vnc_disable`
(guacamole.rs 240-252): `delete` first, early-returning on its error, then
`disable_vnc`. -/
def delete_with_vnc_disable (authOk deleteOk monOk : Bool) (st : SessionState) :
    Except GuacamoleError Unit × SessionState × List TeardownStep :=
  match delete authOk deleteOk st with
  | (.error e, st1, tr1) => (.error e, st1, tr1)
  | (.ok _, st1, tr1) =>
    match disable_vnc monOk st1 with
    | (.error e, st2, tr2) => (.error (.qemu e), st2, tr1 ++ tr2)
    | (.ok _, st2, tr2) => (.ok (), st2, tr1 ++ tr2)

end GuacamoleConnection

/-- C4: the gateway delete always precedes VNC disabling.  If the delete
step fails (auth or delete HTTP failure) the instance's VNC port is
untouched and no disable was ever attempted; conversely any attempted
disable implies the delete had already succeeded — the trace is exactly
auth, gateway-delete, vnc-disable, and the gateway record is already gone. -/
theorem delete_with_vnc_disable_ordering :
    ∀ (authOk deleteOk monOk : Bool) (st : SessionState),
      (¬(authOk = true ∧ deleteOk = true) →
        (GuacamoleConnection.delete_with_vnc_disable authOk deleteOk monOk st).2.1.vnc_port
            = st.vnc_port ∧
          TeardownStep.vncDisable ∉
            (GuacamoleConnection.delete_with_vnc_disable authOk deleteOk monOk st).2.2) ∧
      (TeardownStep.vncDisable ∈
          (GuacamoleConnection.delete_with_vnc_disable authOk deleteOk monOk st).2.2 →
        authOk = true ∧ deleteOk = true ∧
          (GuacamoleConnection.delete_with_vnc_disable authOk deleteOk monOk st).2.2
            = [.gatewayAuth, .gatewayDelete, .vncDisable] ∧
          (GuacamoleConnection.delete_with_vnc_disable
              authOk deleteOk monOk st).2.1.connectionRegistered = false) := by
  intro authOk deleteOk monOk st
  obtain ⟨cr, vp⟩ := st
  cases authOk <;> cases deleteOk <;> cases monOk <;> cases vp <;>
    simp [GuacamoleConnection.delete_with_vnc_disable, GuacamoleConnection.delete,
      disable_vnc]

/-- Witness for C4: with all three outcomes successful and VNC enabled, the
disable attempt happens and the trace shows it strictly after the delete. -/
theorem delete_with_vnc_disable_ordering_witness :
    true = true ∧ true = true ∧
      (GuacamoleConnection.delete_with_vnc_disable true true true
          ⟨true, some 5900⟩).2.2
        = [.gatewayAuth, .gatewayDelete, .vncDisable] ∧
      (GuacamoleConnection.delete_with_vnc_disable true true true
          ⟨true, some 5900⟩).2.1.connectionRegistered = false :=
  (delete_with_vnc_disable_ordering true true true ⟨true, some 5900⟩).2 (by decide)

/-! ## Image records and the image-chain resolver (qemu.rs / models.rs)

`Image` (models.rs 32-42) with `Uuid` modelled as `Nat`; the database is the
list of image records, looked up by primary key. -/

/-- `Image` (models.rs 32-42). -/
structure Image where
  id : Nat
  name : String
  path : String
  parent_id : Option Nat
  description : Option String
deriving DecidableEq

/-- Primary-key lookup of an image record. -/
def findImage (db : List Image) (i : Nat) : Option Image :=
  db.find? (fun im => im.id == i)

/-- Modelled from the spec: `get_image_chain` is an `unimplemented!()` stub
(qemu.rs 353-362).  Spec section 4.2 and the stub's TODO comment: start at the
given image id, follow `parent_id` links prepending each record, stop at a
record with no parent (result ordered root-first); fail with `ImageNotFound`
on a missing link; detect and fail on a cycle rather than loop forever.
`visited` is the cycle-detection set; `fuel` (|db| + 1) bounds the walk. -/
def chainAux (db : List Image) : Nat → List Nat → Nat → List Image →
    Except QemuError (List Image)
  | 0, _, _, _ => .error (.invalidConfiguration "image ancestry too deep")
  | fuel + 1, visited, cur, acc =>
    if cur ∈ visited then
      .error (.invalidConfiguration "cycle detected in image ancestry")
    else
      match findImage db cur with
      | none => .error (.imageNotFound cur)
      | some im =>
        match im.parent_id with
        | none => .ok (im :: acc)
        | some p => chainAux db fuel (cur :: visited) p (im :: acc)

/-- Modelled from the spec (see `chainAux`): the chain resolver entry point
(`get_image_chain`, qemu.rs 353-362 / spec `resolve_chain`). -/
def get_image_chain (db : List Image) (image_id : Nat) :
    Except QemuError (List Image) :=
  chainAux db (db.length + 1) [] image_id []

lemma chainAux_ok (db : List Image) : ∀ (fuel : Nat) (visited : List Nat)
    (cur : Nat) (acc out : List Image), chainAux db fuel visited cur acc = .ok out →
    ∃ pre, out = pre ++ acc ∧ pre ≠ [] ∧
      (∀ i0 ∈ pre.head?, i0.parent_id = none) ∧
      (∀ il ∈ pre.getLast?, il.id = cur) ∧
      List.Chain' (fun a b => b.parent_id = some a.id) pre ∧
      (∀ x ∈ pre, x ∈ db) := by
  intro fuel
  induction fuel with
  | zero =>
    intro visited cur acc out h
    exact absurd h (by simp [chainAux])
  | succ fuel ih =>
    intro visited cur acc out h
    unfold chainAux at h
    by_cases hv : cur ∈ visited
    · rw [if_pos hv] at h
      exact absurd h (by simp)
    · rw [if_neg hv] at h
      cases hf : findImage db cur with
      | none => simp only [hf] at h; exact absurd h (by simp)
      | some im =>
        simp only [hf] at h
        have him_db : im ∈ db := List.mem_of_find?_eq_some hf
        have him_id : im.id = cur := by
          have := List.find?_some hf
          simpa using this
        cases hp : im.parent_id with
        | none =>
          simp only [hp] at h
          injection h with h
          refine ⟨[im], by rw [← h]; rfl, by simp, ?_, ?_, ?_, ?_⟩
          · intro i0 hi0
            rw [Option.mem_def] at hi0
            injection hi0 with hi0
            subst hi0
            exact hp
          · intro il hil
            rw [Option.mem_def] at hil
            simp at hil
            subst hil
            exact him_id
          · exact List.chain'_singleton im
          · intro x hx
            simp at hx
            rw [hx]
            exact him_db
        | some p =>
          simp only [hp] at h
          obtain ⟨pre, hout, hne, hhead, hlast, hchain, hmem⟩ :=
            ih (cur :: visited) p (im :: acc) out h
          refine ⟨pre ++ [im], ?_, by simp, ?_, ?_, ?_, ?_⟩
          · rw [hout, List.append_assoc]
            rfl
          · intro i0 hi0
            apply hhead
            rw [Option.mem_def] at hi0 ⊢
            rwa [List.head?_append_of_ne_nil _ hne] at hi0
          · intro il hil
            rw [Option.mem_def] at hil
            rw [List.getLast?_append_of_ne_nil _ (by simp)] at hil
            simp at hil
            subst hil
            exact him_id
          · rw [List.chain'_append]
            refine ⟨hchain, List.chain'_singleton im, ?_⟩
            intro x hx y hy
            rw [Option.mem_def] at hy
            injection hy with hy
            rw [← hy, hp, hlast x hx]
          · intro x hx
            rcases List.mem_append.mp hx with hx | hx
            · exact hmem x hx
            · simp at hx
              rw [hx]
              exact him_db

/-- `chain` is a fully-resolving root-first ancestry of image `image_id`
in `db`: non-empty, rooted (the head has no parent), adjacent records linked
by `parent_id`, ending at `image_id`, every record being exactly the db
record found for its id, with pairwise-distinct ids.  A parent chain of
length N with every link resolving is a `ValidChain` of N + 1 records. -/
def ValidChain (db : List Image) (image_id : Nat) (chain : List Image) : Prop :=
  chain ≠ [] ∧
  (∀ i0 ∈ chain.head?, i0.parent_id = none) ∧
  List.Chain' (fun a b => b.parent_id = some a.id) chain ∧
  (∀ il ∈ chain.getLast?, il.id = image_id) ∧
  (∀ x ∈ chain, findImage db x.id = some x) ∧
  (chain.map Image.id).Nodup

/-- `walked` is a fully-resolving root-first partial ancestry of `image_id`
in `db` whose topmost record's parent link refers to the id `missing`, for
which no record exists: the ancestry has a missing link at an arbitrary
depth. -/
def BrokenChain (db : List Image) (image_id : Nat) (walked : List Image)
    (missing : Nat) : Prop :=
  walked ≠ [] ∧
  (∀ i0 ∈ walked.head?, i0.parent_id = some missing) ∧
  List.Chain' (fun a b => b.parent_id = some a.id) walked ∧
  (∀ il ∈ walked.getLast?, il.id = image_id) ∧
  (∀ x ∈ walked, findImage db x.id = some x) ∧
  (walked.map Image.id).Nodup ∧
  findImage db missing = none

lemma chainAux_complete (db : List Image) :
    ∀ (pre : List Image) (fuel : Nat) (visited : List Nat) (acc : List Image)
      (cur : Nat),
      pre ≠ [] →
      (∀ i0 ∈ pre.head?, i0.parent_id = none) →
      List.Chain' (fun a b => b.parent_id = some a.id) pre →
      (∀ il ∈ pre.getLast?, il.id = cur) →
      (∀ x ∈ pre, findImage db x.id = some x) →
      (pre.map Image.id).Nodup →
      (∀ x ∈ pre, x.id ∉ visited) →
      pre.length ≤ fuel →
      chainAux db fuel visited cur acc = .ok (pre ++ acc) := by
  intro pre
  induction pre using List.reverseRecOn with
  | nil =>
    intro fuel visited acc cur hne
    exact absurd rfl hne
  | append_singleton l' a ih =>
    intro fuel visited acc cur hne hhead hchain hlast hfind hnodup hvis hfuel
    have hcur : a.id = cur := by
      apply hlast
      rw [Option.mem_def, List.getLast?_concat]
    subst hcur
    have hlen : l'.length + 1 ≤ fuel := by
      simpa using hfuel
    cases fuel with
    | zero => omega
    | succ f =>
      unfold chainAux
      rw [if_neg (hvis a (by simp))]
      have hfa : findImage db a.id = some a := hfind a (by simp)
      simp only [hfa]
      by_cases hl : l' = []
      · subst hl
        have hpar : a.parent_id = none := by
          apply hhead
          rw [Option.mem_def]
          rfl
        simp only [hpar]
        rfl
      · cases hb : l'.getLast? with
        | none => exact absurd (List.getLast?_eq_none_iff.mp hb) hl
        | some b =>
          have hpar : a.parent_id = some b.id := by
            apply (List.chain'_append.mp hchain).2.2 b _ a _
            · rw [Option.mem_def]
              exact hb
            · rw [Option.mem_def]
              rfl
          simp only [hpar]
          have happ : (l' ++ [a]) ++ acc = l' ++ (a :: acc) := by simp
          rw [happ]
          apply ih f (a.id :: visited) (a :: acc) b.id hl
          · intro i0 hi0
            apply hhead
            rw [Option.mem_def, List.head?_append_of_ne_nil _ hl]
            rw [Option.mem_def] at hi0
            exact hi0
          · exact (List.chain'_append.mp hchain).1
          · intro il hil
            rw [Option.mem_def] at hil
            rw [hb] at hil
            injection hil with hil
            rw [hil]
          · intro x hx
            exact hfind x (List.mem_append_of_mem_left _ hx)
          · rw [List.map_append] at hnodup
            exact (List.nodup_append.mp hnodup).1
          · intro x hx hmem
            rcases List.mem_cons.mp hmem with he | hm
            · rw [List.map_append] at hnodup
              exact (List.nodup_append.mp hnodup).2.2
                (List.mem_map_of_mem _ hx) (by simp [he])
            · exact hvis x (List.mem_append_of_mem_left _ hx) hm
          · omega

lemma chainAux_broken (db : List Image) :
    ∀ (pre : List Image) (fuel : Nat) (visited : List Nat) (acc : List Image)
      (cur missing : Nat),
      pre ≠ [] →
      (∀ i0 ∈ pre.head?, i0.parent_id = some missing) →
      List.Chain' (fun a b => b.parent_id = some a.id) pre →
      (∀ il ∈ pre.getLast?, il.id = cur) →
      (∀ x ∈ pre, findImage db x.id = some x) →
      (pre.map Image.id).Nodup →
      (∀ x ∈ pre, x.id ∉ visited) →
      missing ∉ visited →
      findImage db missing = none →
      pre.length < fuel →
      chainAux db fuel visited cur acc = .error (.imageNotFound missing) := by
  intro pre
  induction pre using List.reverseRecOn with
  | nil =>
    intro fuel visited acc cur missing hne
    exact absurd rfl hne
  | append_singleton l' a ih =>
    intro fuel visited acc cur missing hne hhead hchain hlast hfind hnodup hvis
      hmv hmnone hfuel
    have hcur : a.id = cur := by
      apply hlast
      rw [Option.mem_def, List.getLast?_concat]
    subst hcur
    have hlen : l'.length + 1 < fuel := by
      simpa using hfuel
    cases fuel with
    | zero => omega
    | succ f =>
      unfold chainAux
      rw [if_neg (hvis a (by simp))]
      have hfa : findImage db a.id = some a := hfind a (by simp)
      simp only [hfa]
      have hnm : missing ∉ a.id :: visited := by
        intro hmem
        rcases List.mem_cons.mp hmem with he | hm
        · rw [he, hfa] at hmnone
          exact absurd hmnone (by simp)
        · exact hmv hm
      by_cases hl : l' = []
      · subst hl
        have hpar : a.parent_id = some missing := by
          apply hhead
          rw [Option.mem_def]
          rfl
        simp only [hpar]
        cases f with
        | zero => omega
        | succ f2 =>
          unfold chainAux
          rw [if_neg hnm]
          simp only [hmnone]
      · cases hb : l'.getLast? with
        | none => exact absurd (List.getLast?_eq_none_iff.mp hb) hl
        | some b =>
          have hpar : a.parent_id = some b.id := by
            apply (List.chain'_append.mp hchain).2.2 b _ a _
            · rw [Option.mem_def]
              exact hb
            · rw [Option.mem_def]
              rfl
          simp only [hpar]
          apply ih f (a.id :: visited) (a :: acc) b.id missing hl
          · intro i0 hi0
            apply hhead
            rw [Option.mem_def, List.head?_append_of_ne_nil _ hl]
            rw [Option.mem_def] at hi0
            exact hi0
          · exact (List.chain'_append.mp hchain).1
          · intro il hil
            rw [Option.mem_def] at hil
            rw [hb] at hil
            injection hil with hil
            rw [hil]
          · intro x hx
            exact hfind x (List.mem_append_of_mem_left _ hx)
          · rw [List.map_append] at hnodup
            exact (List.nodup_append.mp hnodup).1
          · intro x hx hmem
            rcases List.mem_cons.mp hmem with he | hm
            · rw [List.map_append] at hnodup
              exact (List.nodup_append.mp hnodup).2.2
                (List.mem_map_of_mem _ hx) (by simp [he])
            · exact hvis x (List.mem_append_of_mem_left _ hx) hm
          · exact hnm
          · exact hmnone
          · omega

/-- C6: whenever the chain resolver succeeds, the returned chain is
non-empty, starts at a root image (`parent_id = None`), satisfies
`chain[i+1].parent_id = chain[i].id` for every adjacent pair, ends at the
requested image, and consists of database records; a missing record for the
requested image fails with `ImageNotFound`; conversely, on every image whose
ancestry fully resolves (a `ValidChain` of N + 1 records for a parent chain
of length N) the resolver succeeds with exactly those N + 1 records; and an
ancestry with a missing record at any link (`BrokenChain`) fails with
`ImageNotFound` naming the missing id. -/
theorem get_image_chain_spec :
    ∀ (db : List Image) (image_id : Nat) (chain : List Image),
      (get_image_chain db image_id = .ok chain →
        chain ≠ [] ∧
        (∀ i0 ∈ chain.head?, i0.parent_id = none) ∧
        List.Chain' (fun a b => b.parent_id = some a.id) chain ∧
        (∀ il ∈ chain.getLast?, il.id = image_id) ∧
        (∀ im ∈ chain, im ∈ db)) ∧
      (findImage db image_id = none →
        get_image_chain db image_id = .error (.imageNotFound image_id)) ∧
      (ValidChain db image_id chain →
        get_image_chain db image_id = .ok chain) ∧
      (∀ walked missing, BrokenChain db image_id walked missing →
        get_image_chain db image_id = .error (.imageNotFound missing)) := by
  intro db image_id chain
  refine ⟨?_, ?_, ?_, ?_⟩
  · intro h
    obtain ⟨pre, hout, hne, hhead, hlast, hchain, hmem⟩ :=
      chainAux_ok db (db.length + 1) [] image_id [] chain h
    rw [List.append_nil] at hout
    subst hout
    exact ⟨hne, hhead, hchain, hlast, hmem⟩
  · intro h
    unfold get_image_chain chainAux
    rw [if_neg (by simp)]
    simp only [h]
  · intro hvc
    obtain ⟨hne, hhead, hchain, hlast, hfind, hnodup⟩ := hvc
    have hsub : chain ⊆ db := fun x hx =>
      List.mem_of_find?_eq_some (hfind x hx)
    have hnd : chain.Nodup := List.Nodup.of_map _ hnodup
    have hlen : chain.length ≤ db.length := (hnd.subperm hsub).length_le
    have h2 := chainAux_complete db chain (db.length + 1) [] [] image_id hne
      hhead hchain hlast hfind hnodup (fun x _ => List.not_mem_nil x.id)
      (by omega)
    rw [List.append_nil] at h2
    exact h2
  · intro walked missing hbc
    obtain ⟨hne, hhead, hchain, hlast, hfind, hnodup, hmnone⟩ := hbc
    have hsub : walked ⊆ db := fun x hx =>
      List.mem_of_find?_eq_some (hfind x hx)
    have hnd : walked.Nodup := List.Nodup.of_map _ hnodup
    have hlen : walked.length ≤ db.length := (hnd.subperm hsub).length_le
    exact chainAux_broken db walked (db.length + 1) [] [] image_id missing hne
      hhead hchain hlast hfind hnodup (fun x _ => List.not_mem_nil x.id)
      (List.not_mem_nil missing) hmnone (by omega)

/-- Witness for C6: the two-image database base ← leaf resolves leaf's chain
to `[base, leaf]`, which satisfies the adjacency invariant. -/
theorem get_image_chain_spec_witness :
    List.Chain' (fun a b : Image => b.parent_id = some a.id)
      ([⟨0, "base", "b.qcow2", none, none⟩,
        ⟨1, "leaf", "l.qcow2", some 0, none⟩] : List Image) :=
  ((get_image_chain_spec
      [⟨0, "base", "b.qcow2", none, none⟩, ⟨1, "leaf", "l.qcow2", some 0, none⟩] 1
      [⟨0, "base", "b.qcow2", none, none⟩, ⟨1, "leaf", "l.qcow2", some 0, none⟩]).1
    rfl).2.2.1

lemma chainAux_no_root (db : List Image)
    (hdb : ∀ im ∈ db, (Image.parent_id im).isSome = true) :
    ∀ (fuel : Nat) (visited : List Nat) (cur : Nat) (acc : List Image),
      ∃ e, chainAux db fuel visited cur acc = .error e := by
  intro fuel
  induction fuel with
  | zero =>
    intro visited cur acc
    exact ⟨.invalidConfiguration "image ancestry too deep", by simp [chainAux]⟩
  | succ fuel ih =>
    intro visited cur acc
    unfold chainAux
    by_cases hv : cur ∈ visited
    · rw [if_pos hv]
      exact ⟨.invalidConfiguration "cycle detected in image ancestry", rfl⟩
    · rw [if_neg hv]
      cases hf : findImage db cur with
      | none => exact ⟨.imageNotFound cur, rfl⟩
      | some im =>
        have him_db : im ∈ db := List.mem_of_find?_eq_some hf
        cases hp : im.parent_id with
        | none =>
          have := hdb im him_db
          rw [hp] at this
          exact absurd this (by simp)
        | some p =>
          obtain ⟨e, he⟩ := ih (cur :: visited) p (im :: acc)
          exact ⟨e, by simp only [hp]; exact he⟩

/-- C8: the chain resolver is total by construction, and on any database in
which every record has a parent — in particular one whose `parent_id` links
form a cycle — it returns an error instead of looping forever. -/
theorem get_image_chain_cycle_safe :
    ∀ (db : List Image) (image_id : Nat),
      (∀ im ∈ db, (Image.parent_id im).isSome = true) →
      ∃ e, get_image_chain db image_id = .error e := by
  intro db image_id hdb
  exact chainAux_no_root db hdb (db.length + 1) [] image_id []

/-- Witness for C8: on the two-image cycle 0 → 1 → 0, resolution fails
(with the cycle-detection error) rather than diverging. -/
theorem get_image_chain_cycle_safe_witness :
    ∃ e, get_image_chain
        [⟨0, "a", "a.qcow2", some 1, none⟩, ⟨1, "b", "b.qcow2", some 0, none⟩] 0
      = .error e :=
  get_image_chain_cycle_safe
    [⟨0, "a", "a.qcow2", some 1, none⟩, ⟨1, "b", "b.qcow2", some 0, none⟩] 0
    (by decide)

/-! ## VNC display allocation (qemu.rs 303-313) -/

/-- Modelled from the spec: `allocate_vnc_display` is an `unimplemented!()`
stub (qemu.rs 303-313).  Spec section 4.6 and the stub's TODO comment: iterate
through `[range_start, range_end]`, return the first display not in
`used_displays`, and fail with `VncPortAllocationFailed` when the range is
exhausted.  The `HashSet<u16>` is modelled as a list of naturals; the second
argument counts the displays left to try. -/
def allocAux (used : List Nat) : Nat → Nat → Except QemuError Nat
  | _, 0 => .error .vncPortAllocationFailed
  | cur, n + 1 => if cur ∈ used then allocAux used (cur + 1) n else .ok cur

/-- Modelled from the spec (see `allocAux`): the allocator entry point. -/
def allocate_vnc_display (used : List Nat) (range_start range_end : Nat) :
    Except QemuError Nat :=
  allocAux used range_start (range_end + 1 - range_start)

lemma allocAux_ok (used : List Nat) : ∀ (n s d : Nat),
    allocAux used s n = .ok d →
      s ≤ d ∧ d < s + n ∧ d ∉ used ∧ ∀ x, s ≤ x → x < d → x ∈ used := by
  intro n
  induction n with
  | zero =>
    intro s d h
    exact absurd h (by simp [allocAux])
  | succ n ih =>
    intro s d h
    unfold allocAux at h
    by_cases hs : s ∈ used
    · rw [if_pos hs] at h
      obtain ⟨h1, h2, h3, h4⟩ := ih (s + 1) d h
      refine ⟨by omega, by omega, h3, ?_⟩
      intro x hx1 hx2
      by_cases hxs : x = s
      · rw [hxs]; exact hs
      · exact h4 x (by omega) hx2
    · rw [if_neg hs] at h
      injection h with h
      subst h
      exact ⟨le_refl _, by omega, hs, fun x hx1 hx2 => absurd hx1 (by omega)⟩

lemma allocAux_exhausted (used : List Nat) : ∀ (n s : Nat),
    (∀ x, s ≤ x → x < s + n → x ∈ used) →
      allocAux used s n = .error .vncPortAllocationFailed := by
  intro n
  induction n with
  | zero => intro s _; rfl
  | succ n ih =>
    intro s h
    have hs : s ∈ used := h s (le_refl s) (by omega)
    unfold allocAux
    rw [if_pos hs]
    exact ih (s + 1) (fun x h1 h2 => h x (by omega) (by omega))

/-- C7: the allocator returns the lowest display in
`[range_start, range_end]` not in the used set (every smaller in-range
display is used), fails with `VncPortAllocationFailed` exactly when the
whole range is used, and the two concrete examples evaluate as claimed. -/
theorem allocate_vnc_display_spec :
    ∀ (used : List Nat) (range_start range_end : Nat),
      (∀ d, allocate_vnc_display used range_start range_end = .ok d →
        range_start ≤ d ∧ d ≤ range_end ∧ d ∉ used ∧
          ∀ x, range_start ≤ x → x < d → x ∈ used) ∧
      ((∀ d, range_start ≤ d → d ≤ range_end → d ∈ used) →
        allocate_vnc_display used range_start range_end
          = .error .vncPortAllocationFailed) ∧
      allocate_vnc_display [0, 1, 2] 0 4 = .ok 3 ∧
      allocate_vnc_display [0, 1, 2, 3, 4] 0 4
        = .error .vncPortAllocationFailed := by
  intro used range_start range_end
  refine ⟨?_, ?_, rfl, rfl⟩
  · intro d h
    obtain ⟨h1, h2, h3, h4⟩ := allocAux_ok used _ _ _ h
    exact ⟨h1, by omega, h3, h4⟩
  · intro h
    apply allocAux_exhausted
    intro x h1 h2
    exact h x h1 (by omega)

/-- Witness for C7: allocating from used set {0,1,2} over [0,4] returns 3,
which lies in the range. -/
theorem allocate_vnc_display_spec_witness : 0 ≤ 3 ∧ 3 ≤ 4 :=
  ⟨((allocate_vnc_display_spec [0, 1, 2] 0 4).1 3 rfl).1,
   ((allocate_vnc_display_spec [0, 1, 2] 0 4).1 3 rfl).2.1⟩

/-! ## Node wipe (qemu.rs 282-292) -/

/-- `NodeStatus` (models.rs 56-61). -/
inductive NodeStatus where
  | running
  | stopped
deriving DecidableEq

/-- `Node` (models.rs 65-79) with `Uuid` as `Nat`. -/
structure Node where
  id : Nat
  name : String
  status : NodeStatus
  image_id : Nat
  instance_overlay_path : String
  vnc_port : Option Nat
  guacamole_connection_id : Option String
deriving DecidableEq

/-- An overlay file on disk, identified by its backing image. -/
structure OverlayFile where
  backing_id : Nat
deriving DecidableEq

/-- The node's slice of the overlay directory: its instance overlay and a
scratch slot for a freshly built overlay. -/
structure NodeFsState where
  instance_overlay : Option OverlayFile
  temp_overlay : Option OverlayFile
deriving DecidableEq

/-- Modelled from the spec: `wipe_node` is an `unimplemented!()` stub
(qemu.rs 282-292).  Spec section 4.3: requires the node be Stopped; deletes the
existing instance overlay (if any) and recreates a fresh one backed by
`image`; must be atomic from the caller's view — on failure partway either
the old overlay remains or the new one is fully created, never neither.
The model realizes the atomicity requirement by building the fresh overlay
aside (`temp_overlay`, outcome `createOk`) and atomically swapping it into
place (outcome `swapOk`); a failure at either step leaves the instance
overlay untouched. -/
def wipe_node (node : Node) (image : Image) (createOk swapOk : Bool)
    (st : NodeFsState) : Except QemuError Unit × NodeFsState :=
  match node.status with
  | .running => (.error .nodeAlreadyRunning, st)
  | .stopped =>
    if createOk = false then
      (.error (.spawnFailed "qemu-img create failed"), st)
    else
      let st1 : NodeFsState := { st with temp_overlay := some ⟨image.id⟩ }
      if swapOk = false then
        (.error (.spawnFailed "rename failed"), st1)
      else
        (.ok (), { instance_overlay := some ⟨image.id⟩, temp_overlay := none })

/-- C9: on a Stopped node, `wipe_node` either succeeds — the old instance
overlay is gone and exactly the fresh overlay backed by `image` is in
place — or fails with the previous instance overlay untouched; it never
leaves the node with neither overlay. -/
theorem wipe_node_atomic :
    ∀ (node : Node) (image : Image) (createOk swapOk : Bool) (st : NodeFsState),
      node.status = .stopped →
        ((wipe_node node image createOk swapOk st).1 = .ok () →
          (wipe_node node image createOk swapOk st).2.instance_overlay
            = some ⟨image.id⟩) ∧
        (∀ e, (wipe_node node image createOk swapOk st).1 = .error e →
          (wipe_node node image createOk swapOk st).2.instance_overlay
            = st.instance_overlay) := by
  intro node image createOk swapOk st hstop
  cases createOk <;> cases swapOk <;> simp [wipe_node, hstop]

/-- Witness for C9: a successful wipe of a Stopped node carrying an old
overlay backed by image 7 ends with exactly the fresh overlay backed by the
requested image 1. -/
theorem wipe_node_atomic_witness :
    (wipe_node ⟨0, "n", .stopped, 1, "ovl.qcow2", none, none⟩
        ⟨1, "img", "i.qcow2", none, none⟩ true true
        ⟨some ⟨7⟩, none⟩).2.instance_overlay = some ⟨1⟩ :=
  (wipe_node_atomic ⟨0, "n", .stopped, 1, "ovl.qcow2", none, none⟩
    ⟨1, "img", "i.qcow2", none, none⟩ true true ⟨some ⟨7⟩, none⟩ rfl).1 rfl

end NetworkLab
